import Mathlib

/-!
Verification of the response-parsing and normalization pipeline of the
healthcare-ai front end (src/frontend/docker_artifacts/app.py).

The Python source is shallowly embedded: strings are `String` (lists of
characters), Python dicts from `json.loads` are association lists,
`datetime.strptime` is modelled by a faithful transcription of CPython's
`_strptime` regex semantics for the two formats the source uses
(`%Y-%m-%d` and `%Y-%m-%d %H:%M:%S`), and the MySQL connection plus the
stdlib `json.loads`/`json.dumps` calls are passed in as explicit oracle
parameters, so that stateful or foreign behaviour becomes explicit data
flow.  ASCII character classes are used throughout (the inputs of
interest are ASCII).
-/

namespace HealthcareAI

/-- ASCII digit test, as CPython's regex `\d` behaves on the ASCII inputs
relevant here. -/
def isDig (c : Char) : Bool := 48 ≤ c.toNat && c.toNat ≤ 57

/-- Python whitespace (`str.strip`, regex `\s`), ASCII fragment:
space, tab, newline, carriage return, vertical tab, form feed. -/
def isPySpace (c : Char) : Bool :=
  c.toNat = 32 || c.toNat = 9 || c.toNat = 10 || c.toNat = 13 || c.toNat = 11 || c.toNat = 12

/-- Numeric value of an ASCII digit character. -/
def dv (c : Char) : Nat := c.toNat - 48

/-- The `{` character (written via its code point). -/
def lb : Char := Char.ofNat 123

/-- The `}` character (written via its code point). -/
def rb : Char := Char.ofNat 125

/-- Python `needle in haystack` for a single-character needle. -/
def hasChar (c : Char) (s : String) : Bool := s.data.any (fun a => a == c)

/-- Python `s.count(ch)` for a single character. -/
def countChar (c : Char) (s : String) : Nat := s.data.count c

/-- Python `s.strip()` on a character list (ASCII whitespace). -/
def pyStrip (l : List Char) : List Char :=
  ((l.dropWhile isPySpace).reverse.dropWhile isPySpace).reverse

/-- Python `s.find(ch)` (index of first occurrence), `none` for absent. -/
def firstIdxChar (c : Char) : List Char → Option Nat
  | [] => none
  | a :: rest => if a = c then some 0 else (firstIdxChar c rest).map (fun i => i + 1)

/-- Python `s.rfind(ch)` (index of last occurrence), `none` for absent. -/
def lastIdxChar (c : Char) (l : List Char) : Option Nat :=
  (firstIdxChar c l.reverse).map (fun i => l.length - 1 - i)

/-- Python slice `l[a:b]` for 0 ≤ a, b (an empty list when a ≥ b). -/
def pySlice (a b : Nat) (l : List Char) : List Char := (l.take b).drop a

/-- Index of the first occurrence of the substring `sep` in `l`
(Python `haystack.find(sep)` / the scan underlying `str.split`). -/
def firstOcc (sep : List Char) : List Char → Option Nat
  | [] => if sep = [] then some 0 else none
  | c :: rest =>
    if sep.isPrefixOf (c :: rest) then some 0
    else (firstOcc sep rest).map (fun i => i + 1)

/-- Python `haystack.__contains__(sep)` (substring containment). -/
def hasSub (sep l : List Char) : Bool := (firstOcc sep l).isSome

/-- Python `s.split(sep)` for a nonempty separator, fuelled so that the
recursion is structural; `pySplitS` supplies sufficient fuel. -/
def pySplitFuel (sep : List Char) : Nat → List Char → List (List Char)
  | 0, l => [l]
  | n + 1, l =>
    match firstOcc sep l with
    | none => [l]
    | some i => l.take i :: pySplitFuel sep n (l.drop (i + sep.length))

/-- Python `s.split(sep)` (non-overlapping, left to right). -/
def pySplitS (sep l : List Char) : List (List Char) := pySplitFuel sep (l.length + 1) l

/-!
## `datetime.strptime` for the two formats used by the source

CPython's `_strptime` compiles `%Y-%m-%d %H:%M:%S` to the regex
`(?P<Y>\d\d\d\d)-(?P<m>1[0-2]|0[1-9]|[1-9])-(?P<d>3[01]|[12]\d|0[1-9]|[1-9])\s+(?P<H>2[0-3]|[01]\d|\d):(?P<M>[0-5]\d|\d):(?P<S>6[0-1]|[0-5]\d|\d)`
anchored on both sides, then builds a `datetime`, which additionally
requires year ≥ 1, a day valid for the month, and second ≤ 59 (the
regex's 60/61 seconds always make the constructor raise, which the
caller treats exactly like a match failure).  The transcription below
is deterministic: wherever the regex alternation offers a two-digit and
a one-digit reading, the follow-up character decides the branch (a digit
can only continue a two-digit field, a separator only a one-digit one),
so backtracking never changes acceptance.
-/

/-- Parsed `%Y-%m-%d %H:%M:%S` fields: year, month, day, hour, minute, second. -/
abbrev DT := Nat × Nat × Nat × Nat × Nat × Nat

/-- `(?P<S>...)$`: the seconds field, which must end the string. -/
def pSec (y mo d h mi : Nat) : List Char → Option DT
  | [a, b] =>
    if isDig a && isDig b && (10 * dv a + dv b ≤ 59) then
      some (y, mo, d, h, mi, 10 * dv a + dv b)
    else none
  | [a] => if isDig a then some (y, mo, d, h, mi, dv a) else none
  | _ => none

/-- The literal `:` before the seconds field. -/
def pColonSec (y mo d h mi : Nat) : List Char → Option DT
  | c :: rest => if c = ':' then pSec y mo d h mi rest else none
  | [] => none

/-- `(?P<M>[0-5]\d|\d)`: the minutes field. -/
def pMin (y mo d h : Nat) : List Char → Option DT
  | a :: b :: rest =>
    if isDig a && isDig b then
      if 10 * dv a + dv b ≤ 59 then pColonSec y mo d h (10 * dv a + dv b) rest else none
    else if isDig a then pColonSec y mo d h (dv a) (b :: rest)
    else none
  | [a] => if isDig a then pColonSec y mo d h (dv a) [] else none
  | [] => none

/-- The literal `:` before the minutes field. -/
def pColonMin (y mo d h : Nat) : List Char → Option DT
  | c :: rest => if c = ':' then pMin y mo d h rest else none
  | [] => none

/-- `(?P<H>2[0-3]|[01]\d|\d)`: the hours field. -/
def pHour (y mo d : Nat) : List Char → Option DT
  | a :: b :: rest =>
    if isDig a && isDig b then
      if 10 * dv a + dv b ≤ 23 then pColonMin y mo d (10 * dv a + dv b) rest else none
    else if isDig a then pColonMin y mo d (dv a) (b :: rest)
    else none
  | [a] => if isDig a then pColonMin y mo d (dv a) [] else none
  | [] => none

/-- `\s+` between date and time (the single space of the format string,
which CPython rewrites to `\s+`): at least one whitespace character,
then the maximal run (the following field starts with a digit, so
taking the maximal run is equivalent to backtracking). -/
def pWs (y mo d : Nat) : List Char → Option DT
  | c :: rest => if isPySpace c then pHour y mo d (rest.dropWhile isPySpace) else none
  | [] => none

/-- `(?P<d>3[01]|[12]\d|0[1-9]|[1-9])`: the day field (01–31 two-digit,
1–9 one-digit). -/
def pDay (y mo : Nat) : List Char → Option DT
  | a :: b :: rest =>
    if isDig a && isDig b then
      if 1 ≤ 10 * dv a + dv b && 10 * dv a + dv b ≤ 31 then
        pWs y mo (10 * dv a + dv b) rest
      else none
    else if isDig a && 1 ≤ dv a then pWs y mo (dv a) (b :: rest)
    else none
  | [a] => if isDig a && 1 ≤ dv a then pWs y mo (dv a) [] else none
  | [] => none

/-- The literal `-` before the day field. -/
def pDashDay (y mo : Nat) : List Char → Option DT
  | c :: rest => if c = '-' then pDay y mo rest else none
  | [] => none

/-- `(?P<m>1[0-2]|0[1-9]|[1-9])`: the month field (01–12 two-digit,
1–9 one-digit). -/
def pMonth (y : Nat) : List Char → Option DT
  | a :: b :: rest =>
    if isDig a && isDig b then
      if 1 ≤ 10 * dv a + dv b && 10 * dv a + dv b ≤ 12 then
        pDashDay y (10 * dv a + dv b) rest
      else none
    else if isDig a && 1 ≤ dv a then pDashDay y (dv a) (b :: rest)
    else none
  | [a] => if isDig a && 1 ≤ dv a then pDashDay y (dv a) [] else none
  | [] => none

/-- `(?P<Y>\d\d\d\d)-` then the rest of `%Y-%m-%d %H:%M:%S`. -/
def dtParse : List Char → Option DT
  | a :: b :: c :: d :: e :: rest =>
    if isDig a && isDig b && isDig c && isDig d && e = '-' then
      pMonth (1000 * dv a + 100 * dv b + 10 * dv c + dv d) rest
    else none
  | _ => none

/-- Proleptic Gregorian leap year, as `datetime` uses. -/
def isLeap (y : Nat) : Bool := y % 4 = 0 && (y % 100 ≠ 0 || y % 400 = 0)

/-- Days in a month, as `datetime` validates. -/
def daysInMonth (y mo : Nat) : Nat :=
  if mo = 2 then (if isLeap y then 29 else 28)
  else if mo = 4 || mo = 6 || mo = 9 || mo = 11 then 30
  else 31

/-- `datetime.strptime(s, "%Y-%m-%d %H:%M:%S")` succeeds (the regex
matches the whole string and the captured fields form a valid
`datetime`). -/
def strptimeDT (s : String) : Bool :=
  match dtParse s.data with
  | some (y, mo, d, _, _, _) => 1 ≤ y && d ≤ daysInMonth y mo
  | none => false

/-- The day field of `%Y-%m-%d`, which must end the string. -/
def pDayEnd (y mo : Nat) : List Char → Option (Nat × Nat × Nat)
  | [a, b] =>
    if isDig a && isDig b && (1 ≤ 10 * dv a + dv b) && (10 * dv a + dv b ≤ 31) then
      some (y, mo, 10 * dv a + dv b)
    else none
  | [a] => if isDig a && 1 ≤ dv a then some (y, mo, dv a) else none
  | _ => none

/-- The literal `-` before the final day field of `%Y-%m-%d`. -/
def pDashDayEnd (y mo : Nat) : List Char → Option (Nat × Nat × Nat)
  | c :: rest => if c = '-' then pDayEnd y mo rest else none
  | [] => none

/-- The month field of `%Y-%m-%d`. -/
def pMonthD (y : Nat) : List Char → Option (Nat × Nat × Nat)
  | a :: b :: rest =>
    if isDig a && isDig b then
      if 1 ≤ 10 * dv a + dv b && 10 * dv a + dv b ≤ 12 then
        pDashDayEnd y (10 * dv a + dv b) rest
      else none
    else if isDig a && 1 ≤ dv a then pDashDayEnd y (dv a) (b :: rest)
    else none
  | [a] => if isDig a && 1 ≤ dv a then pDashDayEnd y (dv a) [] else none
  | [] => none

/-- `(?P<Y>\d\d\d\d)-` then the rest of `%Y-%m-%d`. -/
def dParse : List Char → Option (Nat × Nat × Nat)
  | a :: b :: c :: d :: e :: rest =>
    if isDig a && isDig b && isDig c && isDig d && e = '-' then
      pMonthD (1000 * dv a + 100 * dv b + 10 * dv c + dv d) rest
    else none
  | _ => none

/-- `datetime.strptime(s, "%Y-%m-%d")` succeeds. -/
def strptimeD (s : String) : Bool :=
  match dParse s.data with
  | some (y, mo, d) => 1 ≤ y && d ≤ daysInMonth y mo
  | none => false

/-!
## Language Code Normalizer (app.py lines 328–391)

`str.lower` is modelled per character (ASCII); Python's falsy test on a
possibly-`None`/empty argument becomes a test against the empty string.
-/

/-- Python `s.lower()` (ASCII). -/
def pyLower (s : String) : String := String.mk (s.data.map Char.toLower)

/-- The `if`/`elif` chain of `get_language_code`, applied to the already
normalized (lowercased or defaulted) name. -/
def glcCore (n : String) : String :=
  if n = "bg" ∨ n = "bulgarian" then "bulgarian"
  else if n = "en" ∨ n = "english" then "english"
  else if n = "de" ∨ n = "german" then "german"
  else if n = "pl" ∨ n = "polish" then "polish"
  else if n = "cs" ∨ n = "czech" then "czech"
  else if n = "sk" ∨ n = "slovak" then "slovak"
  else if n = "uk" ∨ n = "ukrainian" then "ukrainian"
  else if n = "fi" ∨ n = "finnish" then "finnish"
  else "english"

/-- `get_language_code` (app.py 328–352): lowercase (falsy input
defaults to `"english"`), then the chain above. -/
def get_language_code (language_name : String) : String :=
  glcCore (if language_name = "" then "english" else pyLower language_name)

/-- The literal dict of `get_iso_language_code`. -/
def iso_language_map : List (String × String) :=
  [("English", "en"), ("German", "de"), ("Polish", "pl"), ("Czech", "cs"),
   ("Slovak", "sk"), ("Ukrainian", "uk"), ("Bulgarian", "bg"), ("Finnish", "fi")]

/-- Python `dict.get key default` on an association list. -/
def dictGetD (m : List (String × String)) (k d : String) : String :=
  ((m.find? (fun p => p.1 == k)).map Prod.snd).getD d

/-- `get_iso_language_code` (app.py 354–366): a case-sensitive dict
lookup defaulting to `"en"`. -/
def get_iso_language_code (language_name : String) : String :=
  dictGetD iso_language_map language_name "en"

/-- The literal dict of `normalize_language_name`. -/
def code_map : List (String × String) :=
  [("bg", "Bulgarian"), ("en", "English"), ("de", "German"), ("pl", "Polish"),
   ("cs", "Czech"), ("sk", "Slovak"), ("uk", "Ukrainian"), ("fi", "Finnish"),
   ("bulgarian", "Bulgarian"), ("english", "English"), ("german", "German"),
   ("polish", "Polish"), ("czech", "Czech"), ("slovak", "Slovak"),
   ("ukrainian", "Ukrainian"), ("finnish", "Finnish")]

/-- `normalize_language_name` (app.py 368–391): lowercase (falsy input
defaults to `"en"`), then a dict lookup defaulting to `"Unknown"`. -/
def normalize_language_name (language_code : String) : String :=
  dictGetD code_map (if language_code = "" then "en" else pyLower language_code) "Unknown"

/-!
## Field Validator and Persistence Adapter (`save_diagnosis_to_db`, app.py 219–318)

The parsed JSON object is an association list of string keys to string
values; a `none` result below is a field persisted as SQL `NULL`.
-/

/-- Python `"T" in v` for the visit-time check. -/
def containsT (v : String) : Bool := v.data.any (fun c => c == 'T')

/-- Python `v.replace("T", " ")` (every occurrence). -/
def replaceT (v : String) : String :=
  String.mk (v.data.map (fun c => if c == 'T' then ' ' else c))

/-- `len(v.strip())`. -/
def stripLen (v : String) : Nat := (pyStrip v.data).length

/-- The two rewriting steps of the `visit_time` branch (app.py
255–262): `T` is replaced by a space when present, then a midnight time
is appended when the stripped result has exactly 10 characters and the
(unstripped) result has exactly two hyphens. -/
def visitTransform (v : String) : String :=
  let v1 := if containsT v then replaceT v else v
  if stripLen v1 = 10 ∧ countChar '-' v1 = 2 then v1 ++ " 00:00:00" else v1

/-- The `visit_time` branch of `save_diagnosis_to_db` (app.py 249–267):
empty or `"N/A"` stays the sentinel; otherwise the transformed value is
kept only when `datetime.strptime(·, "%Y-%m-%d %H:%M:%S")` succeeds
(its `ValueError` is caught and yields the sentinel). -/
def visitTimeNormalize (v : String) : Option String :=
  if v = "N/A" ∨ v = "" then none
  else if strptimeDT (visitTransform v) then some (visitTransform v) else none

/-- The `date_of_birth` branch of `save_diagnosis_to_db` (app.py
238–247): empty or `"N/A"` stays the sentinel; otherwise the value is
kept only when `datetime.strptime(·, "%Y-%m-%d")` succeeds. -/
def dobNormalize (v : String) : Option String :=
  if v = "N/A" ∨ v = "" then none
  else if strptimeD v then some v else none

/-- `diagnosis_data.get(k, "N/A")`. -/
def pyGet (m : List (String × String)) (k : String) : String := dictGetD m k "N/A"

/-- The row bound to the `INSERT INTO triage` statement (app.py
269–299), as (column, value) pairs; `none` is SQL `NULL` (the special
handling of the `"N/A"` sentinel for the two date-typed columns). -/
def buildRow (m : List (String × String)) : List (String × Option String) :=
  [("patient_name", some (pyGet m "patient_name")),
   ("date_of_birth", dobNormalize (pyGet m "date_of_birth")),
   ("visit_time", visitTimeNormalize (pyGet m "visit_time")),
   ("severity", some (pyGet m "severity")),
   ("primary_diagnosis", some (pyGet m "primary_diagnosis")),
   ("secondary_diagnoses", some (pyGet m "secondary_diagnoses")),
   ("recommended_tests", some (pyGet m "recommended_tests")),
   ("recommended_treatment", some (pyGet m "recommended_treatment")),
   ("follow_up", some (pyGet m "follow_up"))]

/-- Outcome of the MySQL interaction inside `save_diagnosis_to_db`,
passed in as an oracle: `pymysql.connect` raising, `cursor.execute` /
`commit` raising (`pymysql.MySQLError` or any other exception), or a
successful insert returning `cursor.lastrowid`. -/
inductive DbResult where
  | ok (id : Nat)
  | connectFail (msg : String)
  | insertFail (msg : String)
  | otherFail (msg : String)

/-- Observable outcome of one `save_diagnosis_to_db` call: the returned
`(success, message)` pair, the id embedded in the success message,
whether a database connection was opened, and the row handed to
`cursor.execute` (if any). -/
structure SaveOutcome where
  ok : Bool
  message : String
  recordId : Option Nat
  connected : Bool
  inserted : Option (List (String × Option String))

/-- `save_diagnosis_to_db` (app.py 219–318).  `loads` is the result of
`json.loads(json_data)` (`none` when it raises `JSONDecodeError`), and
`db` the oracle for the MySQL calls; both stdlib behaviours are outside
this repository.  Every `except` branch of the source returns a
`(False, message)` value, so the embedding is a total function. -/
def save_diagnosis_to_db (json_data : String)
    (loads : Option (List (String × String))) (db : DbResult) : SaveOutcome :=
  if json_data = "" ∨ json_data = "No JSON found in response" ∨
      json_data = "Invalid JSON format" then
    ⟨false, "No valid data to save to database.", none, false, none⟩
  else
    match loads with
    | none => ⟨false, "Failed to parse JSON data.", none, false, none⟩
    | some m =>
      match db with
      | .connectFail e => ⟨false, "Database error: " ++ e, none, false, none⟩
      | .insertFail e => ⟨false, "Database error: " ++ e, none, true, none⟩
      | .otherFail e => ⟨false, "Error: " ++ e, none, true, none⟩
      | .ok id =>
        ⟨true, "Diagnosis saved successfully to database with ID: " ++ toString id,
         some id, true, some (buildRow m)⟩

/-!
## Section Extractor and Structured-Record Extractor
(`parse_medreason_response`, app.py 535–596, and the inline extraction
of `diagnose_doctor_notes`, app.py 1319–1360)
-/

/-- `"## Triage Summary"` as a character list. -/
def tsMarker : List Char := "## Triage Summary".data

/-- `"## Final Answer"` as a character list. -/
def faMarker : List Char := "## Final Answer".data

/-- `text.split(marker)[1].strip()`, the shared shape of every section
computation in the source (element 1 of a Python `split` is the text
between the first occurrence of the separator and the next one, or to
the end of the text when the separator occurs once). -/
def splitSecondStripped (marker l : List Char) : List Char :=
  pyStrip ((pySplitS marker l).getD 1 [])

/-- The `final_answer` section of `parse_medreason_response` (app.py
573–577): `"## Triage Summary"` checked first, then `"## Final
Answer"`, else the empty string. -/
def sectionFinalAnswer (text : String) : String :=
  if hasSub tsMarker text.data then String.mk (splitSecondStripped tsMarker text.data)
  else if hasSub faMarker text.data then String.mk (splitSecondStripped faMarker text.data)
  else ""

/-- `after_marker` of `diagnose_doctor_notes` (app.py 1322–1328): same
marker logic, but the whole raw response when no marker is present. -/
def afterMarker (raw : String) : String :=
  if hasSub tsMarker raw.data then String.mk (splitSecondStripped tsMarker raw.data)
  else if hasSub faMarker raw.data then String.mk (splitSecondStripped faMarker raw.data)
  else raw

/-- The substring `parse_medreason_response` hands to `json.loads`
(app.py 581–584): from the first `{` to the last `}` (inclusive), with
no brace-balance scanning; `none` when the section lacks a brace. -/
def pmrJsonStr (fa : String) : Option String :=
  if hasChar lb fa ∧ hasChar rb fa then
    some (String.mk (pySlice ((firstIdxChar lb fa.data).getD 0)
      ((lastIdxChar rb fa.data).getD 0 + 1) fa.data))
  else none

/-- `parse_medreason_response`'s `final_answer` value after the JSON
re-formatting step (app.py 579–596); `loads`/`dumps` are the oracle for
`json.loads` and `json.dumps(·, indent=2)`.  A failing `loads` keeps
the section text unchanged (`except: pass`). -/
def parse_medreason_final_answer {J : Type} (loads : String → Option J)
    (dumps : J → String) (text : String) : String :=
  let fa := sectionFinalAnswer text
  match pmrJsonStr fa with
  | some s =>
    match loads s with
    | some j => dumps j
    | none => fa
  | none => fa

/-- The brace-balance scan of `diagnose_doctor_notes` (app.py
1333–1343): starting at the first `{`, depth is incremented on `{` and
decremented on `}`; the result is the index (relative to the scan
start) of the brace where depth returns to zero. -/
def balScan : List Char → Int → Nat → Option Nat
  | [], _, _ => none
  | c :: rest, depth, i =>
    if c = lb then balScan rest (depth + 1) (i + 1)
    else if c = rb then
      (if depth - 1 = 0 then some i else balScan rest (depth - 1) (i + 1))
    else balScan rest depth (i + 1)

/-- The substring `diagnose_doctor_notes` hands to `json.loads` (app.py
1330–1346): from the first `{` to its brace-balanced matching `}`;
`none` when a brace is missing or depth never returns to zero. -/
def ddnJsonStr (after : String) : Option String :=
  if hasChar lb after ∧ hasChar rb after then
    let start := (firstIdxChar lb after.data).getD 0
    match balScan (after.data.drop start) 0 0 with
    | some i => some (String.mk (pySlice start (start + i + 1) after.data))
    | none => none
  else none

/-- `json_output` of `diagnose_doctor_notes` (app.py 1319–1360),
including its three sentinels. -/
def ddn_json_output {J : Type} (loads : String → Option J) (dumps : J → String)
    (raw : String) : String :=
  let after := afterMarker raw
  if hasChar lb after ∧ hasChar rb after then
    match balScan (after.data.drop ((firstIdxChar lb after.data).getD 0)) 0 0 with
    | some i =>
      match loads (String.mk (pySlice ((firstIdxChar lb after.data).getD 0)
          (((firstIdxChar lb after.data).getD 0) + i + 1) after.data)) with
      | some j => dumps j
      | none => "Invalid JSON format"
    | none => "No valid JSON found in response"
  else "No JSON found in response"

/-!
## Claim-side (spec-worded) definitions, for comparison with the code
-/

/-- The claim's strict `YYYY-MM-DD` shape: exactly ten characters,
digits in the date positions and hyphens at positions 4 and 7. -/
def strictDateShape (s : String) : Bool :=
  match s.data with
  | [a, b, c, d, e, f, g, h, i, j] =>
    isDig a && isDig b && isDig c && isDig d && e = '-' && isDig f && isDig g &&
    h = '-' && isDig i && isDig j
  | _ => false

/-- The claim's strict `YYYY-MM-DD HH:MM:SS` shape (nineteen
characters, zero-padded fields). -/
def strictDTShape (s : String) : Bool :=
  match s.data with
  | [a, b, c, d, e, f, g, h, i, j, k, l1, l2, l3, l4, l5, l6, l7, l8] =>
    isDig a && isDig b && isDig c && isDig d && e = '-' && isDig f && isDig g &&
    h = '-' && isDig i && isDig j && k = ' ' && isDig l1 && isDig l2 && l3 = ':' &&
    isDig l4 && isDig l5 && l6 = ':' && isDig l7 && isDig l8
  | _ => false

/-- Claim C5's reading of the final-answer section: the text after the
*last* occurrence of the preferred marker, extending to end-of-text
(stripped like the code does). -/
def lastOccIdx (sep l : List Char) : Option Nat :=
  ((List.range (l.length + 1)).filter (fun i => sep.isPrefixOf (l.drop i))).getLast?

/-- The final-answer section as claim C5 states it (after the last
marker occurrence, to end-of-text). -/
def claimAfterLastMarker (text : String) : String :=
  if hasSub tsMarker text.data then
    String.mk (pyStrip (text.data.drop
      (((lastOccIdx tsMarker text.data).getD 0) + tsMarker.length)))
  else if hasSub faMarker text.data then
    String.mk (pyStrip (text.data.drop
      (((lastOccIdx faMarker text.data).getD 0) + faMarker.length)))
  else ""

/-- The segment a Python `split(marker)[1]` denotes, stated
declaratively: the text after the first occurrence of the marker, up to
the next occurrence (or to end-of-text), stripped. -/
def specFinalAnswerSegment (marker l : List Char) : List Char :=
  match firstOcc marker l with
  | none => []
  | some i =>
    match firstOcc marker (l.drop (i + marker.length)) with
    | none => pyStrip (l.drop (i + marker.length))
    | some k => pyStrip ((l.drop (i + marker.length)).take k)

/-- The amended final-answer section: first-occurrence based, with
`## Triage Summary` preferred over `## Final Answer`. -/
def specFinalAnswer (text : String) : String :=
  if hasSub tsMarker text.data then String.mk (specFinalAnswerSegment tsMarker text.data)
  else if hasSub faMarker text.data then String.mk (specFinalAnswerSegment faMarker text.data)
  else ""

/-!
## Helper lemmas
-/

theorem find?_eq_none_of_keys (m : List (String × String)) (s : String)
    (h : ∀ p ∈ m, p.1 ≠ s) : m.find? (fun p => p.1 == s) = none := by
  induction m with
  | nil => rfl
  | cons a t ih =>
    have ha : (a.1 == s) = false := beq_eq_false_iff_ne.mpr (h a (by simp))
    rw [List.find?_cons, ha]
    exact ih (fun p hp => h p (by simp [hp]))

theorem pyLower_eq_empty {t : String} (h : pyLower t = "") : t = "" := by
  cases t with
  | mk d =>
    have hd := congrArg String.data h
    simp only [pyLower] at hd
    have : d = [] := List.map_eq_nil_iff.mp hd
    simp [this]

theorem firstOcc_nil_of_ne {sep : List Char} (h : sep ≠ []) :
    firstOcc sep [] = none := by
  simp [firstOcc, h]

theorem pySplitFuel_getD_zero (marker : List Char) (m : Nat) (l : List Char) :
    (pySplitFuel marker (m + 1) l).getD 0 [] =
      (match firstOcc marker l with
       | none => l
       | some k => l.take k) := by
  unfold pySplitFuel
  cases h : firstOcc marker l <;> simp [h]

theorem splitSecond_eq_spec (marker l : List Char) (hm : marker ≠ [])
    (hocc : (firstOcc marker l).isSome) :
    splitSecondStripped marker l = specFinalAnswerSegment marker l := by
  obtain ⟨i, hi⟩ := Option.isSome_iff_exists.mp hocc
  have hl : l ≠ [] := by
    intro he
    rw [he, firstOcc_nil_of_ne hm] at hi
    exact Option.noConfusion hi
  obtain ⟨m, hlen⟩ : ∃ m, l.length = m + 1 := by
    cases hlc : l with
    | nil => exact absurd hlc hl
    | cons a t => exact ⟨t.length, by simp⟩
  unfold splitSecondStripped pySplitS specFinalAnswerSegment
  rw [hlen, hi]
  show pyStrip ((pySplitFuel marker (m + 1 + 1) l).getD 1 []) = _
  unfold pySplitFuel
  rw [hi]
  show pyStrip ((pySplitFuel marker (m + 1) (l.drop (i + marker.length))).getD 0 []) = _
  rw [pySplitFuel_getD_zero]
  cases h2 : firstOcc marker (l.drop (i + marker.length)) <;> simp [h2]

/-!
## Claim C1 — Structured-Record Extractor brace handling

`diagnose_doctor_notes` (app.py 1330–1357) performs the brace-balanced
scan the claim describes, but `parse_medreason_response` (app.py
579–596) extracts from the first `{` to the *last* `}`, so on a
final-answer section with a stray `}` in trailing prose its extracted
substring is the naive, over-extended one.
-/

/-- Claim C1, evaluated on a final-answer text with a stray `}` in
trailing prose: the `diagnose_doctor_notes` extractor returns exactly
the brace-balanced object, while `parse_medreason_response` hands the
over-extended first-`{`-to-last-`}` substring to the JSON parser —
contradicting the claim for the latter extractor. -/
theorem c1_balanced_vs_naive_extraction :
    sectionFinalAnswer "## Triage Summary\n\x7b\"severity\": \"Mild\"\x7d extra \x7d" =
      "\x7b\"severity\": \"Mild\"\x7d extra \x7d" ∧
    afterMarker "## Triage Summary\n\x7b\"severity\": \"Mild\"\x7d extra \x7d" =
      "\x7b\"severity\": \"Mild\"\x7d extra \x7d" ∧
    ddnJsonStr "\x7b\"severity\": \"Mild\"\x7d extra \x7d" =
      some "\x7b\"severity\": \"Mild\"\x7d" ∧
    pmrJsonStr "\x7b\"severity\": \"Mild\"\x7d extra \x7d" =
      some "\x7b\"severity\": \"Mild\"\x7d extra \x7d" ∧
    ("\x7b\"severity\": \"Mild\"\x7d extra \x7d" : String) ≠ "\x7b\"severity\": \"Mild\"\x7d" := by
  exact ⟨by decide, by decide, by decide, by decide, by decide⟩

/-!
## Claim C4 — Persistence Adapter guards and fault handling
-/

/-- Claim C4: for sentinel or empty payloads the save returns failure
with no connection opened and no row issued; for an unparseable payload
likewise; and every database fault (connect failure, MySQL error during
insert, any other exception) is returned as a `(False, message)` value
— the embedding is a total function, so no fault propagates. -/
theorem c4_save_refuses_and_catches (json_data : String)
    (loads : Option (List (String × String))) (db : DbResult) :
    ((json_data = "" ∨ json_data = "No JSON found in response" ∨
        json_data = "Invalid JSON format") →
      (save_diagnosis_to_db json_data loads db).ok = false ∧
      (save_diagnosis_to_db json_data loads db).connected = false ∧
      (save_diagnosis_to_db json_data loads db).inserted = none) ∧
    (loads = none →
      (save_diagnosis_to_db json_data loads db).ok = false ∧
      (save_diagnosis_to_db json_data loads db).connected = false ∧
      (save_diagnosis_to_db json_data loads db).inserted = none) ∧
    (∀ e, db = DbResult.connectFail e ∨ db = DbResult.insertFail e ∨
        db = DbResult.otherFail e →
      (save_diagnosis_to_db json_data loads db).ok = false ∧
      (save_diagnosis_to_db json_data loads db).inserted = none) := by
  refine ⟨fun h => ?_, fun h => ?_, fun e h => ?_⟩
  · simp [save_diagnosis_to_db, h]
  · unfold save_diagnosis_to_db
    subst h
    split
    · exact ⟨rfl, rfl, rfl⟩
    · exact ⟨rfl, rfl, rfl⟩
  · unfold save_diagnosis_to_db
    split
    · exact ⟨rfl, rfl⟩
    · cases loads with
      | none => exact ⟨rfl, rfl⟩
      | some m => rcases h with h | h | h <;> subst h <;> exact ⟨rfl, rfl⟩

/-- Witness for C4 at a concrete sentinel input and a concrete database
fault. -/
theorem c4_save_refuses_and_catches_witness :
    ((save_diagnosis_to_db "Invalid JSON format" (some []) (DbResult.ok 1)).ok = false ∧
     (save_diagnosis_to_db "Invalid JSON format" (some []) (DbResult.ok 1)).connected = false ∧
     (save_diagnosis_to_db "Invalid JSON format" (some []) (DbResult.ok 1)).inserted = none) ∧
    ((save_diagnosis_to_db "\x7b\x7d" (some []) (DbResult.insertFail "constraint")).ok = false ∧
     (save_diagnosis_to_db "\x7b\x7d" (some []) (DbResult.insertFail "constraint")).inserted = none) := by
  exact ⟨(c4_save_refuses_and_catches "Invalid JSON format" (some []) (DbResult.ok 1)).1
      (Or.inr (Or.inr rfl)),
    (c4_save_refuses_and_catches "\x7b\x7d" (some []) (DbResult.insertFail "constraint")).2.2
      "constraint" (Or.inr (Or.inl rfl))⟩

/-!
## Claim C5 — final-answer section marker semantics
-/

/-- Counterexample to claim C5: when `## Final Answer` occurs twice,
the code's section is the text between the first and second
occurrences, not the text after the last occurrence. -/
theorem c5_counterexample :
    sectionFinalAnswer "## Final Answer A ## Final Answer B" = "A" ∧
    claimAfterLastMarker "## Final Answer A ## Final Answer B" = "B" ∧
    sectionFinalAnswer "## Final Answer A ## Final Answer B" ≠
      claimAfterLastMarker "## Final Answer A ## Final Answer B" := by
  exact ⟨by decide, by decide, by decide⟩

/-- Amended claim C5: the final-answer section is the (stripped) text
after the *first* occurrence of the preferred marker, extending to the
next occurrence of that same marker (or to end-of-text when it occurs
only once), with `## Triage Summary` preferred over `## Final Answer`. -/
theorem c5_amended_first_occurrence (text : String) :
    sectionFinalAnswer text = specFinalAnswer text := by
  unfold sectionFinalAnswer specFinalAnswer
  by_cases hts : hasSub tsMarker text.data
  · rw [if_pos hts, if_pos hts,
      splitSecond_eq_spec tsMarker text.data (by decide) hts]
  · rw [if_neg hts, if_neg hts]
    by_cases hfa : hasSub faMarker text.data
    · rw [if_pos hfa, if_pos hfa,
        splitSecond_eq_spec faMarker text.data (by decide) hfa]
    · rw [if_neg hfa, if_neg hfa]

/-!
## Claim C6 — fallbacks of the two language lookups
-/

/-- Counterexample to claim C6: the empty (falsy) input is not a
recognized code or name, yet `normalize_language_name` silently
defaults it to `"English"` instead of the `"Unknown"` sentinel. -/
theorem c6_counterexample :
    normalize_language_name "" = "English" ∧
    ("English" : String) ≠ "Unknown" ∧
    ("" : String) ∉ code_map.map Prod.fst := by
  exact ⟨by decide, by decide, by decide⟩

/-- Amended claim C6: `get_iso_language_code` is total and falls back
to `"en"` for every input other than the eight canonical names;
`normalize_language_name` is total and yields the distinct `"Unknown"`
sentinel for every *nonempty* unrecognized code or name, but maps the
empty (falsy) input to `"English"`; the two fallback values are
distinct and `"Unknown"` is not a supported language name. -/
theorem c6_fallbacks (s : String) :
    (s ∉ ["English", "German", "Polish", "Czech", "Slovak", "Ukrainian",
        "Bulgarian", "Finnish"] →
      get_iso_language_code s = "en") ∧
    (s ≠ "" → pyLower s ∉ code_map.map Prod.fst →
      normalize_language_name s = "Unknown") ∧
    normalize_language_name "" = "English" ∧
    ("Unknown" : String) ∉ ["English", "German", "Polish", "Czech", "Slovak",
      "Ukrainian", "Bulgarian", "Finnish"] ∧
    ("en" : String) ≠ "Unknown" := by
  refine ⟨fun hs => ?_, fun hne hkey => ?_, by decide, by decide, by decide⟩
  · have h : ∀ p ∈ iso_language_map, p.1 ≠ s := by
      intro p hp
      simp only [iso_language_map, List.mem_cons, List.not_mem_nil, or_false] at hp
      simp only [List.mem_cons, List.not_mem_nil, or_false] at hs
      push_neg at hs
      rcases hp with h | h | h | h | h | h | h | h <;> subst h <;> simp <;> tauto
    unfold get_iso_language_code dictGetD
    rw [find?_eq_none_of_keys iso_language_map s h]
    rfl
  · have h : ∀ p ∈ code_map, p.1 ≠ pyLower s := by
      intro p hp heq
      exact hkey (heq ▸ List.mem_map_of_mem Prod.fst hp)
    unfold normalize_language_name dictGetD
    rw [if_neg hne, find?_eq_none_of_keys code_map (pyLower s) h]
    rfl

/-- Witness for C6 at concrete unrecognized inputs. -/
theorem c6_fallbacks_witness :
    get_iso_language_code "Klingon" = "en" ∧
    normalize_language_name "zz" = "Unknown" := by
  exact ⟨(c6_fallbacks "Klingon").1 (by decide),
    (c6_fallbacks "zz").2.1 (by decide) (by decide)⟩

/-!
## Claim C7 — case-insensitivity of the three lookups
-/

/-- Counterexample to claim C7: `get_iso_language_code` is
case-sensitive — the canonical `"German"` maps to `"de"` but the
casing `"GERMAN"` falls back to `"en"`. -/
theorem c7_counterexample :
    get_iso_language_code "German" = "de" ∧
    get_iso_language_code "GERMAN" = "en" ∧
    ("de" : String) ≠ "en" := by
  exact ⟨by decide, by decide, by decide⟩

/-- Amended claim C7: `get_language_code` and `normalize_language_name`
are case-insensitive (inputs equal up to lowercasing give equal
results), while `get_iso_language_code` matches only the canonical
capitalization and sends every other casing to the `"en"` fallback. -/
theorem lowerOrDefault_congr (d : String) {s t : String} (h : pyLower s = pyLower t) :
    (if s = "" then d else pyLower s) = (if t = "" then d else pyLower t) := by
  by_cases hs : s = ""
  · have ht : t = "" := pyLower_eq_empty (by rw [← h, hs]; rfl)
    rw [if_pos hs, if_pos ht]
  · have ht : t ≠ "" := by
      intro he
      exact hs (pyLower_eq_empty (by rw [h, he]; rfl))
    rw [if_neg hs, if_neg ht, h]

/-- Amended claim C7: `get_language_code` and `normalize_language_name`
are case-insensitive (inputs equal up to lowercasing give equal
results), while `get_iso_language_code` matches only the canonical
capitalization and sends every other casing to the `"en"` fallback. -/
theorem c7_case_sensitivity (s t : String) :
    (pyLower s = pyLower t → get_language_code s = get_language_code t) ∧
    (pyLower s = pyLower t → normalize_language_name s = normalize_language_name t) ∧
    (get_iso_language_code "German" = "de" ∧ get_iso_language_code "GERMAN" = "en" ∧
      get_iso_language_code "german" = "en") := by
  refine ⟨fun h => ?_, fun h => ?_, by decide, by decide, by decide⟩
  · unfold get_language_code
    rw [lowerOrDefault_congr "english" h]
  · unfold normalize_language_name
    rw [lowerOrDefault_congr "en" h]

/-- Witness for C7: two casings of the same name agree under
`get_language_code` and `normalize_language_name`. -/
theorem c7_case_sensitivity_witness :
    get_language_code "GeRmAn" = get_language_code "german" ∧
    normalize_language_name "PoLiSh" = normalize_language_name "POLISH" := by
  exact ⟨(c7_case_sensitivity "GeRmAn" "german").1 (by decide),
    (c7_case_sensitivity "PoLiSh" "POLISH").2.1 (by decide)⟩

/-!
## Claims C2 and C3 — counterexamples to the strict-shape validation
-/

/-- Counterexample to claim C2: `"2025-4-23 14:30:00"` fails the strict
`YYYY-MM-DD HH:MM:SS` match (its month is not zero-padded), yet the
code's validation accepts it and it is persisted verbatim rather than
reduced to the sentinel and null. -/
theorem c2_counterexample :
    visitTimeNormalize "2025-4-23 14:30:00" = some "2025-4-23 14:30:00" ∧
    strictDTShape "2025-4-23 14:30:00" = false := by
  exact ⟨by decide, by decide⟩

/-- Counterexample to claim C3: `"1978-1-10"` does not match
`YYYY-MM-DD` exactly (its month is not zero-padded), yet the code's
validation keeps it and persists it verbatim rather than null. -/
theorem c3_counterexample :
    dobNormalize "1978-1-10" = some "1978-1-10" ∧
    strictDateShape "1978-1-10" = false := by
  exact ⟨by decide, by decide⟩

/-!
## Characterization of strings accepted by the `%Y-%m-%d %H:%M:%S` parser

Used for claims C9 (idempotence) and C8 (round trip): an accepted
string consists only of digits, `-`, `:` and whitespace, has length at
least 14, and starts and ends with a digit — hence it contains no `T`,
strips to itself, and its stripped length is never 10.
-/

/-- The character alphabet of strings accepted by the datetime parser. -/
def goodDT (c : Char) : Bool := isDig c || c = '-' || c = ':' || isPySpace c

theorem isDig_ne_T {c : Char} (h : isDig c = true) : (c == 'T') = false := by
  cases hc : (c == 'T') with
  | false => rfl
  | true =>
    have he : c = 'T' := eq_of_beq hc
    subst he
    exact absurd h (by decide)

theorem goodDT_ne_T {c : Char} (h : goodDT c = true) : (c == 'T') = false := by
  cases hc : (c == 'T') with
  | false => rfl
  | true =>
    have he : c = 'T' := eq_of_beq hc
    subst he
    exact absurd h (by decide)

theorem isDig_not_space {c : Char} (h : isDig c = true) : isPySpace c = false := by
  simp only [isDig, Bool.and_eq_true, decide_eq_true_eq] at h
  simp only [isPySpace, Bool.or_eq_false_iff, decide_eq_false_iff_not]
  omega

theorem getLast?_cons_of_ne_nil {x : Char} {l : List Char} (h : l ≠ []) :
    (x :: l).getLast? = l.getLast? := by
  cases l with
  | nil => exact absurd rfl h
  | cons a t => exact List.getLast?_cons_cons

theorem getLast?_append_right {l₁ l₂ : List Char} (h : l₂ ≠ []) :
    (l₁ ++ l₂).getLast? = l₂.getLast? := by
  induction l₁ with
  | nil => rfl
  | cons a t ih =>
    have hne : (t ++ l₂) ≠ [] := by
      intro he
      exact h (List.append_eq_nil.mp he).2
    rw [List.cons_append, getLast?_cons_of_ne_nil hne, ih]

/-- The facts propagated backwards through the parser stages. -/
def StageFacts (k : Nat) (cs : List Char) : Prop :=
  (∀ c ∈ cs, goodDT c = true) ∧ k ≤ cs.length ∧
    ∃ c, cs.getLast? = some c ∧ isDig c = true

theorem stageFacts_cons_digit {k : Nat} {a : Char} {cs : List Char}
    (ha : isDig a = true) (h : StageFacts k cs) : StageFacts (k + 1) (a :: cs) := by
  obtain ⟨hall, hlen, c, hlast, hc⟩ := h
  have hne : cs ≠ [] := by
    intro he
    rw [he] at hlast
    exact Option.noConfusion hlast
  refine ⟨?_, by simp; omega, c, ?_, hc⟩
  · intro x hx
    rcases List.mem_cons.mp hx with rfl | hx
    · simp [goodDT, ha]
    · exact hall x hx
  · rw [getLast?_cons_of_ne_nil hne, hlast]

theorem stageFacts_cons_sep {k : Nat} {a : Char} {cs : List Char}
    (ha : goodDT a = true) (h : StageFacts k cs) : StageFacts (k + 1) (a :: cs) := by
  obtain ⟨hall, hlen, c, hlast, hc⟩ := h
  have hne : cs ≠ [] := by
    intro he
    rw [he] at hlast
    exact Option.noConfusion hlast
  refine ⟨?_, by simp; omega, c, ?_, hc⟩
  · intro x hx
    rcases List.mem_cons.mp hx with rfl | hx
    · exact ha
    · exact hall x hx
  · rw [getLast?_cons_of_ne_nil hne, hlast]

theorem stageFacts_mono {j k : Nat} {cs : List Char}
    (h : StageFacts k cs) (hjk : j ≤ k) : StageFacts j cs := by
  obtain ⟨hall, hlen, c, hlast, hc⟩ := h
  exact ⟨hall, le_trans hjk hlen, c, hlast, hc⟩

theorem pSec_facts {y mo d h mi : Nat} {cs : List Char} {r : DT}
    (hp : pSec y mo d h mi cs = some r) : StageFacts 1 cs := by
  rcases cs with _ | ⟨a, _ | ⟨b, _ | ⟨c, t⟩⟩⟩
  · simp [pSec] at hp
  · simp only [pSec] at hp
    split at hp
    · rename_i ha
      exact ⟨fun c hc => by
          rcases List.mem_cons.mp hc with rfl | hc
          · simp [goodDT, ha]
          · simp at hc,
        by simp, a, rfl, ha⟩
    · exact absurd hp (by simp)
  · simp only [pSec] at hp
    split at hp
    · rename_i hcond
      simp only [Bool.and_eq_true] at hcond
      obtain ⟨⟨ha, hb⟩, -⟩ := hcond
      refine ⟨fun c hc => ?_, by simp, b, rfl, hb⟩
      rcases List.mem_cons.mp hc with rfl | hc
      · simp [goodDT, ha]
      · rcases List.mem_cons.mp hc with rfl | hc
        · simp [goodDT, hb]
        · simp at hc
    · exact absurd hp (by simp)
  · simp [pSec] at hp

theorem pColonSec_facts {y mo d h mi : Nat} {cs : List Char} {r : DT}
    (hp : pColonSec y mo d h mi cs = some r) : StageFacts 2 cs := by
  rcases cs with _ | ⟨a, t⟩
  · simp [pColonSec] at hp
  · simp only [pColonSec] at hp
    split at hp
    · rename_i ha
      exact stageFacts_cons_sep (by simp [goodDT, ha]) (pSec_facts hp)
    · exact absurd hp (by simp)

theorem pMin_facts {y mo d h : Nat} {cs : List Char} {r : DT}
    (hp : pMin y mo d h cs = some r) : StageFacts 3 cs := by
  rcases cs with _ | ⟨a, _ | ⟨b, t⟩⟩
  · simp [pMin] at hp
  · simp only [pMin] at hp
    split at hp
    · simp [pColonSec] at hp
    · exact absurd hp (by simp)
  · simp only [pMin] at hp
    split at hp
    · rename_i hab
      simp only [Bool.and_eq_true] at hab
      split at hp
      · exact stageFacts_mono
          (stageFacts_cons_digit hab.1 (stageFacts_cons_digit hab.2 (pColonSec_facts hp)))
          (by omega)
      · exact absurd hp (by simp)
    · split at hp
      · rename_i hna ha
        exact stageFacts_cons_digit ha (pColonSec_facts hp)
      · exact absurd hp (by simp)

theorem pColonMin_facts {y mo d h : Nat} {cs : List Char} {r : DT}
    (hp : pColonMin y mo d h cs = some r) : StageFacts 4 cs := by
  rcases cs with _ | ⟨a, t⟩
  · simp [pColonMin] at hp
  · simp only [pColonMin] at hp
    split at hp
    · rename_i ha
      exact stageFacts_cons_sep (by simp [goodDT, ha]) (pMin_facts hp)
    · exact absurd hp (by simp)

theorem pHour_facts {y mo d : Nat} {cs : List Char} {r : DT}
    (hp : pHour y mo d cs = some r) : StageFacts 5 cs := by
  rcases cs with _ | ⟨a, _ | ⟨b, t⟩⟩
  · simp [pHour] at hp
  · simp only [pHour] at hp
    split at hp
    · simp [pColonMin] at hp
    · exact absurd hp (by simp)
  · simp only [pHour] at hp
    split at hp
    · rename_i hab
      simp only [Bool.and_eq_true] at hab
      split at hp
      · exact stageFacts_mono
          (stageFacts_cons_digit hab.1 (stageFacts_cons_digit hab.2 (pColonMin_facts hp)))
          (by omega)
      · exact absurd hp (by simp)
    · split at hp
      · rename_i hna ha
        exact stageFacts_cons_digit ha (pColonMin_facts hp)
      · exact absurd hp (by simp)

theorem pWs_facts {y mo d : Nat} {cs : List Char} {r : DT}
    (hp : pWs y mo d cs = some r) : StageFacts 6 cs := by
  rcases cs with _ | ⟨a, t⟩
  · simp [pWs] at hp
  · simp only [pWs] at hp
    split at hp
    · rename_i ha
      obtain ⟨hall, hlen, c, hlast, hc⟩ := pHour_facts hp
      have hsplit : t.takeWhile isPySpace ++ t.dropWhile isPySpace = t :=
        List.takeWhile_append_dropWhile isPySpace t
      have hdw : t.dropWhile isPySpace ≠ [] := by
        intro he
        rw [he] at hlast
        exact Option.noConfusion hlast

      have htlen : (t.dropWhile isPySpace).length ≤ t.length := by
        have hl := congrArg List.length hsplit
        rw [List.length_append] at hl
        omega
      refine ⟨fun x hx => ?_, by simp; omega, c, ?_, hc⟩
      · rcases List.mem_cons.mp hx with rfl | hx
        · simp [goodDT, ha]
        · rw [← hsplit] at hx
          rcases List.mem_append.mp hx with hx | hx
          · simp [goodDT, List.mem_takeWhile_imp hx]
          · exact hall x hx
      · have htne : t ≠ [] := by
          intro he
          rw [he] at hdw
          exact hdw rfl
        rw [getLast?_cons_of_ne_nil htne, ← hsplit, getLast?_append_right hdw, hlast]
    · exact absurd hp (by simp)

theorem pDay_facts {y mo : Nat} {cs : List Char} {r : DT}
    (hp : pDay y mo cs = some r) : StageFacts 7 cs := by
  rcases cs with _ | ⟨a, _ | ⟨b, t⟩⟩
  · simp [pDay] at hp
  · simp only [pDay] at hp
    split at hp
    · simp [pWs] at hp
    · exact absurd hp (by simp)
  · simp only [pDay] at hp
    split at hp
    · rename_i hab
      simp only [Bool.and_eq_true] at hab
      split at hp
      · exact stageFacts_mono
          (stageFacts_cons_digit hab.1 (stageFacts_cons_digit hab.2 (pWs_facts hp)))
          (by omega)
      · exact absurd hp (by simp)
    · split at hp
      · rename_i hna ha
        simp only [Bool.and_eq_true] at ha
        exact stageFacts_cons_digit ha.1 (pWs_facts hp)
      · exact absurd hp (by simp)

theorem pDashDay_facts {y mo : Nat} {cs : List Char} {r : DT}
    (hp : pDashDay y mo cs = some r) : StageFacts 8 cs := by
  rcases cs with _ | ⟨a, t⟩
  · simp [pDashDay] at hp
  · simp only [pDashDay] at hp
    split at hp
    · rename_i ha
      exact stageFacts_cons_sep (by simp [goodDT, ha]) (pDay_facts hp)
    · exact absurd hp (by simp)

theorem pMonth_facts {y : Nat} {cs : List Char} {r : DT}
    (hp : pMonth y cs = some r) : StageFacts 9 cs := by
  rcases cs with _ | ⟨a, _ | ⟨b, t⟩⟩
  · simp [pMonth] at hp
  · simp only [pMonth] at hp
    split at hp
    · simp [pDashDay] at hp
    · exact absurd hp (by simp)
  · simp only [pMonth] at hp
    split at hp
    · rename_i hab
      simp only [Bool.and_eq_true] at hab
      split at hp
      · exact stageFacts_mono
          (stageFacts_cons_digit hab.1 (stageFacts_cons_digit hab.2 (pDashDay_facts hp)))
          (by omega)
      · exact absurd hp (by simp)
    · split at hp
      · rename_i hna ha
        simp only [Bool.and_eq_true] at ha
        exact stageFacts_cons_digit ha.1 (pDashDay_facts hp)
      · exact absurd hp (by simp)

theorem dtParse_facts {cs : List Char} {r : DT} (hp : dtParse cs = some r) :
    StageFacts 14 cs ∧ ∃ a t, cs = a :: t ∧ isDig a = true := by
  rcases cs with _ | ⟨a, _ | ⟨b, _ | ⟨c, _ | ⟨d, _ | ⟨e, t⟩⟩⟩⟩⟩
  · simp [dtParse] at hp
  · simp [dtParse] at hp
  · simp [dtParse] at hp
  · simp [dtParse] at hp
  · simp [dtParse] at hp
  · simp only [dtParse] at hp
    split at hp
    · rename_i hcond
      simp only [Bool.and_eq_true, decide_eq_true_eq] at hcond
      obtain ⟨⟨⟨⟨ha, hb⟩, hc⟩, hd⟩, he⟩ := hcond
      subst he
      have hfacts : StageFacts 11 (d :: '-' :: t) :=
        stageFacts_cons_digit hd (stageFacts_cons_sep (by simp [goodDT]) (pMonth_facts hp))
      exact ⟨stageFacts_cons_digit ha
          (stageFacts_cons_digit hb (stageFacts_cons_digit hc hfacts)),
        a, _, rfl, ha⟩
    · exact absurd hp (by simp)

theorem pyStrip_eq_self {a c : Char} {t : List Char}
    (ha : isPySpace a = false) (hlast : (a :: t).getLast? = some c)
    (hc : isPySpace c = false) : pyStrip (a :: t) = a :: t := by
  unfold pyStrip
  rw [List.dropWhile_cons]
  simp only [ha, Bool.false_eq_true, if_false]
  cases hrev : (a :: t).reverse with
  | nil =>
    have := congrArg List.length hrev
    simp at this
  | cons c0 rest =>
    have hh : (a :: t).reverse.head? = some c0 := by rw [hrev]; rfl
    rw [List.head?_reverse] at hh
    have hcc : c0 = c := by
      rw [hlast] at hh
      exact (Option.some.inj hh).symm
    subst hcc
    rw [List.dropWhile_cons]
    simp only [hc, Bool.false_eq_true, if_false]
    rw [← hrev, List.reverse_reverse]

/-- A string accepted by the `%Y-%m-%d %H:%M:%S` parser is a fixed
point of the whole `visit_time` normalization. -/
theorem strptimeDT_normalize_self {t : String} (h : strptimeDT t = true) :
    visitTimeNormalize t = some t := by
  obtain ⟨r, hr⟩ : ∃ r, dtParse t.data = some r := by
    unfold strptimeDT at h
    cases hd : dtParse t.data with
    | none => rw [hd] at h; simp at h
    | some r => exact ⟨r, rfl⟩
  obtain ⟨⟨hall, hlen, c0, hlast, hc0⟩, a0, t0, hcons, ha0⟩ := dtParse_facts hr
  have hne1 : t ≠ "N/A" := by
    intro he
    rw [he] at hlen
    exact absurd hlen (by decide)
  have hne2 : t ≠ "" := by
    intro he
    rw [he] at hlen
    exact absurd hlen (by decide)
  have hct : containsT t = false := by
    unfold containsT
    rw [List.any_eq_false]
    intro x hx
    rw [goodDT_ne_T (hall x hx)]
    simp
  have hstrip : pyStrip t.data = t.data := by
    rw [hcons]
    refine pyStrip_eq_self (isDig_not_space ha0) ?_ (isDig_not_space hc0)
    rw [← hcons]
    exact hlast
  have hsl : stripLen t ≠ 10 := by
    unfold stripLen
    rw [hstrip]
    omega
  have htrans : visitTransform t = t := by
    unfold visitTransform
    simp only [hct, Bool.false_eq_true, if_false]
    exact if_neg (fun hco => hsl hco.1)
  unfold visitTimeNormalize
  rw [if_neg (by tauto), htrans]
  simp [h]

/-!
## Claim C9 — idempotence of the `visit_time` normalization
-/

/-- Claim C9: the `visit_time` normalization is idempotent — every
string it has produced (an already-normalized value) is mapped to
itself, with no `T`-replacement, no time-appending, and a passing
validation. -/
theorem c9_visit_time_idempotent (s t : String)
    (h : visitTimeNormalize s = some t) : visitTimeNormalize t = some t := by
  unfold visitTimeNormalize at h
  split at h
  · exact absurd h (by simp)
  · split at h
    · rename_i hst
      have ht := Option.some.inj h
      subst ht
      exact strptimeDT_normalize_self hst
    · exact absurd h (by simp)

/-- Witness for C9: the normalized form of `"2025-04-23T14:30:00"` is a
fixed point. -/
theorem c9_visit_time_idempotent_witness :
    visitTimeNormalize "2025-04-23 14:30:00" = some "2025-04-23 14:30:00" :=
  c9_visit_time_idempotent "2025-04-23T14:30:00" "2025-04-23 14:30:00" (by decide)

/-!
## Claim C8 — round trip of a fully well-formed payload
-/

/-- A fully well-formed `date_of_birth` payload value in the sense of
the spec: exact `YYYY-MM-DD` shape and a valid calendar date. -/
def validStrictDate (s : String) : Bool :=
  match s.data with
  | [a, b, c, d, e, f, g, h, i, j] =>
    isDig a && isDig b && isDig c && isDig d && e = '-' && isDig f && isDig g &&
    h = '-' && isDig i && isDig j &&
    (1 ≤ 1000 * dv a + 100 * dv b + 10 * dv c + dv d) &&
    (1 ≤ 10 * dv f + dv g) && (10 * dv f + dv g ≤ 12) &&
    (1 ≤ 10 * dv i + dv j) &&
    (10 * dv i + dv j ≤
      daysInMonth (1000 * dv a + 100 * dv b + 10 * dv c + dv d) (10 * dv f + dv g))
  | _ => false

/-- A fully well-formed `visit_time` payload value in the sense of the
spec: exact `YYYY-MM-DD HH:MM:SS` shape with in-range, calendar-valid
fields. -/
def validStrictDT (s : String) : Bool :=
  match s.data with
  | [a, b, c, d, e, f, g, h, i, j, k, m1, m2, m3, m4, m5, m6, m7, m8] =>
    isDig a && isDig b && isDig c && isDig d && e = '-' && isDig f && isDig g &&
    h = '-' && isDig i && isDig j && k = ' ' && isDig m1 && isDig m2 && m3 = ':' &&
    isDig m4 && isDig m5 && m6 = ':' && isDig m7 && isDig m8 &&
    (1 ≤ 1000 * dv a + 100 * dv b + 10 * dv c + dv d) &&
    (1 ≤ 10 * dv f + dv g) && (10 * dv f + dv g ≤ 12) &&
    (1 ≤ 10 * dv i + dv j) &&
    (10 * dv i + dv j ≤
      daysInMonth (1000 * dv a + 100 * dv b + 10 * dv c + dv d) (10 * dv f + dv g)) &&
    (10 * dv m1 + dv m2 ≤ 23) && (10 * dv m4 + dv m5 ≤ 59) && (10 * dv m7 + dv m8 ≤ 59)
  | _ => false

theorem daysInMonth_le_31 (y mo : Nat) : daysInMonth y mo ≤ 31 := by
  unfold daysInMonth
  split
  · split <;> omega
  · split <;> omega

theorem validStrictDate_accepts {s : String} (h : validStrictDate s = true) :
    strptimeD s = true := by
  unfold validStrictDate at h
  split at h
  · rename_i a b c d e2 f g h2 i j heq
    simp only [Bool.and_eq_true, decide_eq_true_eq, and_assoc] at h
    obtain ⟨ha, hb, hc, hd, he, hf, hg, hh, hi, hj, hy, hmo1, hmo2, hda1, hda2⟩ := h
    subst he
    subst hh
    have h31 := daysInMonth_le_31 (1000 * dv a + 100 * dv b + 10 * dv c + dv d)
      (10 * dv f + dv g)
    have hda31 : 10 * dv i + dv j ≤ 31 := le_trans hda2 h31
    unfold strptimeD
    rw [heq]
    simp [dParse, pMonthD, pDashDayEnd, pDayEnd, ha, hb, hc, hd, hf, hg, hi, hj,
      hmo1, hmo2, hda1, hda31, hy, hda2]
  · exact absurd h (by simp)

theorem validStrictDate_dob {s : String} (h : validStrictDate s = true) :
    dobNormalize s = some s := by
  have h1 : s ≠ "N/A" := fun he => absurd (he ▸ h) (by decide)
  have h2 : s ≠ "" := fun he => absurd (he ▸ h) (by decide)
  unfold dobNormalize
  rw [if_neg (by tauto)]
  simp [validStrictDate_accepts h]

theorem validStrictDT_accepts {s : String} (h : validStrictDT s = true) :
    strptimeDT s = true := by
  unfold validStrictDT at h
  split at h
  · rename_i a b c d e2 f g h2 i j k m1 m2 m3 m4 m5 m6 m7 m8 heq
    simp only [Bool.and_eq_true, decide_eq_true_eq, and_assoc] at h
    obtain ⟨ha, hb, hc, hd, he, hf, hg, hh, hi, hj, hk, hm1, hm2, hm3, hm4, hm5,
      hm6, hm7, hm8, hy, hmo1, hmo2, hda1, hda2, hho, hmi, hse⟩ := h
    subst he
    subst hh
    subst hk
    subst hm3
    subst hm6
    have h31 := daysInMonth_le_31 (1000 * dv a + 100 * dv b + 10 * dv c + dv d)
      (10 * dv f + dv g)
    have hda31 : 10 * dv i + dv j ≤ 31 := le_trans hda2 h31
    unfold strptimeDT
    rw [heq]
    simp [dtParse, pMonth, pDashDay, pDay, pWs, pHour, pColonMin, pMin, pColonSec, pSec,
      List.dropWhile_cons, isDig_not_space hm1,
      show isPySpace ' ' = true by decide,
      ha, hb, hc, hd, hf, hg, hi, hj, hm1, hm2, hm4, hm5, hm7, hm8,
      hmo1, hmo2, hda1, hda31, hy, hda2, hho, hmi, hse]
  · exact absurd h (by simp)

/-- Claim C8: a record built from a payload whose two date fields are
fully well-formed persists all nine triage columns with values
unchanged from the payload, and `medical_reasoning` — present in the
payload or not — never appears among the persisted columns. -/
theorem c8_round_trip (m : List (String × String))
    (hdob : validStrictDate (pyGet m "date_of_birth") = true)
    (hvt : validStrictDT (pyGet m "visit_time") = true) :
    buildRow m =
      [("patient_name", some (pyGet m "patient_name")),
       ("date_of_birth", some (pyGet m "date_of_birth")),
       ("visit_time", some (pyGet m "visit_time")),
       ("severity", some (pyGet m "severity")),
       ("primary_diagnosis", some (pyGet m "primary_diagnosis")),
       ("secondary_diagnoses", some (pyGet m "secondary_diagnoses")),
       ("recommended_tests", some (pyGet m "recommended_tests")),
       ("recommended_treatment", some (pyGet m "recommended_treatment")),
       ("follow_up", some (pyGet m "follow_up"))] ∧
    "medical_reasoning" ∉ (buildRow m).map Prod.fst := by
  constructor
  · unfold buildRow
    rw [validStrictDate_dob hdob, strptimeDT_normalize_self (validStrictDT_accepts hvt)]
  · simp [buildRow]

/-- Witness for C8: a concrete fully well-formed payload (carrying a
`medical_reasoning` field) round-trips with all nine values unchanged
and without a `medical_reasoning` column. -/
theorem c8_round_trip_witness :
    buildRow
        [("patient_name", "Jane Doe"), ("date_of_birth", "1978-01-10"),
         ("visit_time", "2025-04-23 14:30:00"), ("severity", "Moderate"),
         ("primary_diagnosis", "Influenza"), ("secondary_diagnoses", "None"),
         ("recommended_tests", "CBC"), ("recommended_treatment", "Rest"),
         ("follow_up", "One week"), ("medical_reasoning", "internal notes")] =
      [("patient_name", some "Jane Doe"), ("date_of_birth", some "1978-01-10"),
       ("visit_time", some "2025-04-23 14:30:00"), ("severity", some "Moderate"),
       ("primary_diagnosis", some "Influenza"), ("secondary_diagnoses", some "None"),
       ("recommended_tests", some "CBC"), ("recommended_treatment", some "Rest"),
       ("follow_up", some "One week")] ∧
    "medical_reasoning" ∉
      (buildRow
        [("patient_name", "Jane Doe"), ("date_of_birth", "1978-01-10"),
         ("visit_time", "2025-04-23 14:30:00"), ("severity", "Moderate"),
         ("primary_diagnosis", "Influenza"), ("secondary_diagnoses", "None"),
         ("recommended_tests", "CBC"), ("recommended_treatment", "Rest"),
         ("follow_up", "One week"), ("medical_reasoning", "internal notes")]).map Prod.fst := by
  refine ⟨?_, (c8_round_trip _ (by decide) (by decide)).2⟩
  exact ((c8_round_trip _ (by decide) (by decide)).1).trans (by decide)

/-!
## Claims C2 and C3 — amended field-normalization theorems
-/

/-- Amended claim C2: `visit_time` is normalized by replacing every `T`
with a space and appending midnight when the stripped result has 10
characters and two hyphens; the result is persisted exactly when the
CPython `strptime` parse for `%Y-%m-%d %H:%M:%S` succeeds (which also
accepts unpadded fields and whitespace runs, and checks calendar
validity); every failing, missing, empty or `"N/A"` value becomes null,
and the normalization is a total function. -/
theorem c2_visit_time_amended (m : List (String × String)) (v t : String) :
    (v = "N/A" ∨ v = "" → visitTimeNormalize v = none) ∧
    (strptimeDT (visitTransform v) = false → visitTimeNormalize v = none) ∧
    (visitTimeNormalize v = some t → t = visitTransform v ∧ strptimeDT t = true) ∧
    ((buildRow m).getD 2 ("", none)).2 = visitTimeNormalize (pyGet m "visit_time") := by
  refine ⟨fun h => ?_, fun h => ?_, fun h => ?_, rfl⟩
  · unfold visitTimeNormalize
    rw [if_pos h]
  · unfold visitTimeNormalize
    split
    · rfl
    · simp [h]
  · unfold visitTimeNormalize at h
    split at h
    · exact absurd h (by simp)
    · split at h
      · rename_i hst
        have ht := Option.some.inj h
        subst ht
        exact ⟨rfl, hst⟩
      · exact absurd h (by simp)

/-- Witness for C2 at the canonical ISO input. -/
theorem c2_visit_time_amended_witness :
    ("2025-04-23 14:30:00" : String) = visitTransform "2025-04-23T14:30:00" ∧
    strptimeDT "2025-04-23 14:30:00" = true :=
  (c2_visit_time_amended [] "2025-04-23T14:30:00" "2025-04-23 14:30:00").2.2.1 (by decide)

/-- Amended claim C3: `date_of_birth` is kept (verbatim) exactly when
the CPython `strptime` parse for `%Y-%m-%d` succeeds — which accepts
unpadded month and day in addition to the exact `YYYY-MM-DD` shape, and
checks calendar validity; every other value (missing, empty, `"N/A"`,
wrong separators, non-dates) is persisted as null, never as the literal
`"N/A"`, and validation is a total function. -/
theorem c3_date_of_birth_amended (m : List (String × String)) (v : String) :
    (v = "N/A" ∨ v = "" → dobNormalize v = none) ∧
    (strptimeD v = false → dobNormalize v = none) ∧
    (v ≠ "N/A" → v ≠ "" → strptimeD v = true → dobNormalize v = some v) ∧
    dobNormalize v ≠ some "N/A" ∧
    ((buildRow m).getD 1 ("", none)).2 = dobNormalize (pyGet m "date_of_birth") := by
  refine ⟨fun h => ?_, fun h => ?_, fun h1 h2 h3 => ?_, ?_, rfl⟩
  · unfold dobNormalize
    rw [if_pos h]
  · unfold dobNormalize
    split
    · rfl
    · simp [h]
  · unfold dobNormalize
    rw [if_neg (by tauto)]
    simp [h3]
  · unfold dobNormalize
    split
    · simp
    · rename_i hne
      split
      · intro he
        exact hne (Or.inl (Option.some.inj he))
      · simp

/-- Witness for C3 at a strict, valid date. -/
theorem c3_date_of_birth_amended_witness :
    dobNormalize "1978-01-10" = some "1978-01-10" :=
  (c3_date_of_birth_amended [] "1978-01-10").2.2.1 (by decide) (by decide) (by decide)

/-!
## Claim C10 — `parse_medreason_response`'s JSON re-formatting step
-/

theorem head?_mem {a : Char} {l : List Char} (h : l.head? = some a) : a ∈ l := by
  cases l with
  | nil => exact Option.noConfusion h
  | cons b t =>
    have : b = a := by simpa using h
    simp [this]

theorem getLast?_mem_of_eq {a : Char} {l : List Char} (h : l.getLast? = some a) :
    a ∈ l := by
  have hr : l.reverse.head? = some a := by rw [List.head?_reverse]; exact h
  have := head?_mem hr
  simpa using this

theorem firstIdxChar_of_decomp (ch : Char) : ∀ (pre rest : List Char),
    ch ∉ pre → rest.head? = some ch →
    firstIdxChar ch (pre ++ rest) = some pre.length
  | [], rest, _, hr => by
    cases rest with
    | nil => exact Option.noConfusion hr
    | cons a t =>
      have ha : a = ch := by simpa using hr
      subst ha
      simp [firstIdxChar]
  | a :: t, rest, hpre, hr => by
    have hne : a ≠ ch := fun he => hpre (by simp [he])
    have ht : ch ∉ t := fun hm => hpre (by simp [hm])
    rw [List.cons_append]
    show (if a = ch then some 0
      else (firstIdxChar ch (t ++ rest)).map (fun i => i + 1)) = some (a :: t).length
    rw [if_neg hne, firstIdxChar_of_decomp ch t rest ht hr]
    simp

theorem lastIdxChar_of_decomp {ch : Char} {pre mid post : List Char}
    (hpost : ch ∉ post) (hmid : mid.getLast? = some ch) :
    lastIdxChar ch (pre ++ mid ++ post) = some (pre.length + mid.length - 1) := by
  have hmne : mid ≠ [] := by
    intro he
    rw [he] at hmid
    exact Option.noConfusion hmid
  have hrevne : mid.reverse ≠ [] := by simpa using hmne
  have hh : (mid.reverse ++ pre.reverse).head? = some ch := by
    rw [List.head?_append_of_ne_nil mid.reverse hrevne, List.head?_reverse]
    exact hmid
  have hnp : ch ∉ post.reverse := by simpa using hpost
  have hstep : firstIdxChar ch ((pre ++ mid ++ post).reverse) = some post.length := by
    rw [List.reverse_append, List.reverse_append]
    have := firstIdxChar_of_decomp ch post.reverse (mid.reverse ++ pre.reverse) hnp hh
    rw [this]
    simp
  unfold lastIdxChar
  rw [hstep]
  have hmlen : 1 ≤ mid.length := List.length_pos.mpr hmne
  simp
  omega

theorem take_append_len (l₁ l₂ : List Char) (k : Nat) :
    (l₁ ++ l₂).take (l₁.length + k) = l₁ ++ l₂.take k := by
  induction l₁ with
  | nil => simp
  | cons a t ih =>
    rw [List.cons_append, List.length_cons, Nat.add_right_comm, List.take_succ_cons, ih,
      List.cons_append]

theorem slice_decomp (pre mid post : List Char) :
    pySlice pre.length (pre.length + mid.length) (pre ++ mid ++ post) = mid := by
  unfold pySlice
  rw [List.append_assoc, take_append_len pre (mid ++ post) mid.length,
    List.take_left mid post]
  exact List.drop_left pre mid

/-- Claim C10: in `parse_medreason_response`, when the final-answer
section contains `{` and `}`, the substring from its first `{` to its
last `}` is handed to `json.loads`; on success the returned
final-answer is exactly the re-serialized object, on failure the
section text is returned unchanged, and without both braces the section
text is returned unchanged (the embedding is total, so no exception
escapes). -/
theorem c10_pmr_json_reformat {J : Type} (loads : String → Option J)
    (dumps : J → String) (text : String) :
    (¬ (hasChar lb (sectionFinalAnswer text) = true ∧
        hasChar rb (sectionFinalAnswer text) = true) →
      parse_medreason_final_answer loads dumps text = sectionFinalAnswer text) ∧
    (∀ pre mid post, (sectionFinalAnswer text).data = pre ++ mid ++ post →
      lb ∉ pre → rb ∉ post → mid.head? = some lb → mid.getLast? = some rb →
      (∀ j, loads (String.mk mid) = some j →
        parse_medreason_final_answer loads dumps text = dumps j) ∧
      (loads (String.mk mid) = none →
        parse_medreason_final_answer loads dumps text = sectionFinalAnswer text)) := by
  constructor
  · intro h
    have hp : pmrJsonStr (sectionFinalAnswer text) = none := by
      unfold pmrJsonStr
      rw [if_neg h]
    simp only [parse_medreason_final_answer]
    rw [hp]
  · intro pre mid post hdecomp hpre hpost hhead hlastm
    have hmne : mid ≠ [] := by
      intro he
      rw [he] at hhead
      exact Option.noConfusion hhead
    have hmlen : 1 ≤ mid.length := List.length_pos.mpr hmne
    have hfirst : firstIdxChar lb (sectionFinalAnswer text).data = some pre.length := by
      rw [hdecomp, List.append_assoc]
      exact firstIdxChar_of_decomp lb pre (mid ++ post) hpre
        (by rw [List.head?_append_of_ne_nil mid hmne]; exact hhead)
    have hlastidx : lastIdxChar rb (sectionFinalAnswer text).data =
        some (pre.length + mid.length - 1) := by
      rw [hdecomp]
      exact lastIdxChar_of_decomp hpost hlastm
    have hclb : hasChar lb (sectionFinalAnswer text) = true := by
      unfold hasChar
      rw [List.any_eq_true]
      exact ⟨lb, by rw [hdecomp]; simp [head?_mem hhead], by simp⟩
    have hcrb : hasChar rb (sectionFinalAnswer text) = true := by
      unfold hasChar
      rw [List.any_eq_true]
      exact ⟨rb, by rw [hdecomp]; simp [getLast?_mem_of_eq hlastm], by simp⟩
    have hsl : pmrJsonStr (sectionFinalAnswer text) = some (String.mk mid) := by
      unfold pmrJsonStr
      rw [if_pos ⟨hclb, hcrb⟩, hfirst, hlastidx]
      simp only [Option.getD_some]
      have harith : pre.length + mid.length - 1 + 1 = pre.length + mid.length := by omega
      rw [harith, hdecomp]
      exact congrArg (fun l => some (String.mk l)) (slice_decomp pre mid post)
    refine ⟨fun j hj => ?_, fun hj => ?_⟩
    · simp only [parse_medreason_final_answer]
      rw [hsl]
      simp [hj]
    · simp only [parse_medreason_final_answer]
      rw [hsl]
      simp [hj]

/-- Witness for C10: a section holding exactly a two-character JSON
object is recognized, parsed and re-serialized. -/
theorem c10_pmr_json_reformat_witness :
    parse_medreason_final_answer
      (fun s => if s = "\x7b\x7d" then some (7 : Nat) else none)
      (fun _ => "REFORMATTED") "## Final Answer \x7b\x7d" = "REFORMATTED" :=
  ((c10_pmr_json_reformat
      (fun s => if s = "\x7b\x7d" then some (7 : Nat) else none)
      (fun _ => "REFORMATTED") "## Final Answer \x7b\x7d").2
    [] [lb, rb] [] (by decide) (by decide) (by decide) (by decide) (by decide)).1
    7 (by decide)

end HealthcareAI
